import Mathlib

/-!
Shallow embedding of the serial-bridge synchronization core of
`software/fastapi_receiver.py`: the `TableState` store, the
`WebsocketManager` broadcast fan-out, and the `SerialReceiver` line
parsing / read-loop step and outbound teacher command.

Times are modelled as natural numbers (seconds since epoch, as produced
by `time.time()` which is always positive); entity ids and color indices
as integers (Python `int`); colors as strings, exactly as the source
stores them.
-/

namespace Traffic

/-- `COLOR_CODE = {0: "green", 1: "orange", 2: "red"}` with `.get` access. -/
def COLOR_CODE (i : Int) : Option String :=
  if i = 0 then some "green"
  else if i = 1 then some "orange"
  else if i = 2 then some "red"
  else none

/-- `COLOR_NAME_TO_ID`, the inverse map, with `[...]` (KeyError) access
modelled as `Option`. -/
def COLOR_NAME_TO_ID (c : String) : Option Int :=
  if c = "green" then some 0
  else if c = "orange" then some 1
  else if c = "red" then some 2
  else none

/-- One entity of the store: one key of the parallel dicts
`_colors : Dict[int, str]` and `_red_started : Dict[int, Optional[float]]`
(both dicts always hold the same keys, inserted together). -/
structure Entry where
  table : Int
  color : String
  redSince : Option Nat
deriving Repr, DecidableEq

/-- The `TableState` store. `entries` is the (insertion-ordered) list of
dict items; Python dicts preserve insertion order. -/
structure TableState where
  startId : Int
  endId : Int
  entries : List Entry
deriving Repr, DecidableEq

/-- `range(start, end + 1)` as a list of integers. -/
def rangeList (a b : Int) : List Int :=
  (List.range (b + 1 - a).toNat).map (fun i => a + Int.ofNat i)

/-- `TableState.__init__`: one `"green"` / `None` entry per id in
`range(start, end + 1)`. -/
def TableState.init (a b : Int) : TableState :=
  ⟨a, b, (rangeList a b).map (fun t => ⟨t, "green", none⟩)⟩

/-- Python truthiness of `Optional[float]`: `None` and `0.0` are falsy.
Used by `if not self._red_started.get(table)` and by the
`if started` filter in `_red_durations_locked`. -/
def pyTruthy : Option Nat → Bool
  | none => false
  | some t => t ≠ 0

/-- The per-entry effect of `update_table` once the entry exists:
`self._colors[table] = color`, then set / keep / clear `_red_started`. -/
def updateEntry (now : Nat) (color : String) (e : Entry) : Entry :=
  if color = "red" then
    if pyTruthy e.redSince then { e with color := color }
    else { e with color := color, redSince := some now }
  else { e with color := color, redSince := none }

/-- `TableState.update_table`: lazily create the entry if the id is
unknown (appended at the end, as a Python dict insert), then apply
`updateEntry`. -/
def TableState.update_table (s : TableState) (now : Nat) (table : Int)
    (color : String) : TableState :=
  let entries :=
    if s.entries.any (fun e => e.table == table) then s.entries
    else s.entries ++ [⟨table, "green", none⟩]
  { s with entries :=
      entries.map (fun e => if e.table == table then updateEntry now color e else e) }

/-- `TableState.reset_all`: every known entity back to `"green"`, every
`redSince` cleared. -/
def TableState.reset_all (s : TableState) : TableState :=
  { s with entries := s.entries.map (fun e => { e with color := "green", redSince := none }) }

/-- `TableState.configure_range`: `raise ValueError` when
`start <= 0 or end < start`, otherwise replace the whole entity set. -/
def TableState.configure_range (_s : TableState) (a b : Int) :
    Except String TableState :=
  if a ≤ 0 ∨ b < a then .error "Invalid table range"
  else .ok ⟨a, b, (rangeList a b).map (fun t => ⟨t, "green", none⟩)⟩

/-- What the caller's store holds after `configure_range`: the new state
on success, the old state when the `ValueError` was raised (the store is
only mutated after validation). -/
def TableState.apply_configure_range (s : TableState) (a b : Int) : TableState :=
  match s.configure_range a b with
  | .ok s' => s'
  | .error _ => s

/-- Dict lookup by id (first — and only — entry with that key). -/
def TableState.lookup (s : TableState) (t : Int) : Option Entry :=
  s.entries.find? (fun e => e.table == t)

/-- Insert one duration entry into a descending-by-seconds list, after
every earlier element with seconds `≥` its own: together with
`insertionSortDesc` this is the unique stable descending sort, which is
what Python's `list.sort(key=..., reverse=True)` computes. -/
def insertDesc (x : Int × Int) : List (Int × Int) → List (Int × Int)
  | [] => [x]
  | y :: ys => if y.2 ≤ x.2 then x :: y :: ys else y :: insertDesc x ys

/-- Stable descending sort by seconds (second component). -/
def insertionSortDesc : List (Int × Int) → List (Int × Int)
  | [] => []
  | x :: xs => insertDesc x (insertionSortDesc xs)

/-- The unsorted `(table, int(now - started))` list of
`_red_durations_locked`, built in dict insertion order, filtered by the
truthiness of `started`. -/
def redBase (s : TableState) (now : Nat) : List (Int × Int) :=
  (s.entries.filter (fun e => pyTruthy e.redSince)).map
    (fun e => (e.table, (now : Int) - (e.redSince.getD 0 : Int)))

/-- `TableState._red_durations_locked`: sort descending by seconds
(Python's stable sort), truncate to `limit` (callers use the default 10). -/
def TableState.red_durations (s : TableState) (now : Nat) (limit : Nat) :
    List (Int × Int) :=
  (insertionSortDesc (redBase s now)).take limit

/-! ### Serial line parsing (`SerialReceiver._parse_message` / `_read_loop`) -/

/-- Python `str.strip()` whitespace (the ASCII part). -/
def isPySpace (c : Char) : Bool :=
  c = ' ' ∨ c = '\t' ∨ c = '\n' ∨ c = '\r' ∨ c = '\x0b' ∨ c = '\x0c'

/-- `str.strip()` on a character list. -/
def pyStripList (cs : List Char) : List Char :=
  ((cs.dropWhile isPySpace).reverse.dropWhile isPySpace).reverse

/-- `str.strip()`. -/
def pyStrip (s : String) : String := String.mk (pyStripList s.data)

/-- Helper for `str.split(",")`: accumulate the current field (reversed). -/
def pySplitAux (cur : List Char) : List Char → List (List Char)
  | [] => [cur.reverse]
  | c :: cs =>
    if c = ',' then cur.reverse :: pySplitAux [] cs
    else pySplitAux (c :: cur) cs

/-- `str.split(",")`: `""` gives `[""]`, separators are never dropped. -/
def pySplit (s : String) : List String :=
  (pySplitAux [] s.data).map String.mk

/-- Digit run of a Python integer literal after the optional sign:
nonempty, single underscores only between digits. -/
def parseDigitsAux (acc : Nat) : List Char → Option Nat
  | [] => some acc
  | c :: cs =>
    if c.isDigit then parseDigitsAux (acc * 10 + (c.toNat - 48)) cs
    else if c = '_' then
      match cs with
      | [] => none
      | d :: ds => if d.isDigit then parseDigitsAux acc (d :: ds) else none
    else none

/-- Digit run of a Python integer literal: must start with a digit. -/
def parseDigits : List Char → Option Nat
  | [] => none
  | c :: cs => if c.isDigit then parseDigitsAux 0 (c :: cs) else none

/-- Python `int(str)`: surrounding whitespace stripped, optional sign,
then a digit run; `ValueError` modelled as `none`. -/
def pyParseInt (s : String) : Option Int :=
  match pyStripList s.data with
  | '+' :: rest => (parseDigits rest).map (fun n => (n : Int))
  | '-' :: rest => (parseDigits rest).map (fun n => -(n : Int))
  | cs => (parseDigits cs).map (fun n => (n : Int))

/-- `SerialReceiver._parse_message`: wrong field count, `"RT"` role,
non-integer fields and unknown color indices all yield `None`. -/
def parse_message (raw : String) : Option (Int × String) :=
  match pySplit raw with
  | [role, table_str, color_str] =>
    if role = "RT" then none
    else
      match pyParseInt table_str, pyParseInt color_str with
      | some table, some color_index =>
        match COLOR_CODE color_index with
        | some color => some (table, color)
        | none => none
      | _, _ => none
  | _ => none

/-- One iteration of `SerialReceiver._read_loop` on a decoded line:
strip it, skip it when empty or unparseable, otherwise apply
`update_table` and broadcast the update payload (modelled by the changed
`(table, color)` pair). -/
def read_loop_step (s : TableState) (now : Nat) (line : String) :
    TableState × Option (Int × String) :=
  let raw := pyStrip line
  if raw = "" then (s, none)
  else
    match parse_message raw with
    | none => (s, none)
    | some (table, color) => (s.update_table now table color, some (table, color))

/-! ### `WebsocketManager.broadcast` -/

/-- Outcome of `WebsocketManager.broadcast` over an observer list:
which observers received the message, and the observer list afterwards. -/
structure BroadcastResult where
  received : List Nat
  remaining : List Nat
deriving Repr, DecidableEq

/-- `WebsocketManager.broadcast`: try `send_json` on every connection in
order (`ok c` says whether delivery to `c` succeeds); collect the failed
ones in `stale` and `list.remove` each of them afterwards. -/
def broadcast (conns : List Nat) (ok : Nat → Bool) : BroadcastResult :=
  let stale := conns.filter (fun c => !(ok c))
  ⟨conns.filter ok, stale.foldl (fun l c => l.erase c) conns⟩

/-! ### `SerialReceiver.send_teacher_command` -/

/-- Errors `send_teacher_command` can raise. -/
inductive SendError where
  | keyError
  | linkUnavailable
deriving Repr, DecidableEq

/-- The serial connection handle: absent, or present with its
`is_open` flag. -/
def ConnState : Type := Option Bool

/-- `SerialReceiver.send_teacher_command`: look the color up in
`COLOR_NAME_TO_ID` (KeyError on unknown color), `raise RuntimeError`
(`LinkUnavailable`) unless a connection is open, otherwise write exactly
`"T,{table},{color_id}\n"`. -/
def send_teacher_command (conn : ConnState) (table : Int) (color : String) :
    Except SendError String :=
  match COLOR_NAME_TO_ID color with
  | none => .error .keyError
  | some color_id =>
    match conn with
    | none => .error .linkUnavailable
    | some is_open =>
      if is_open then .ok ("T," ++ toString table ++ "," ++ toString color_id ++ "\n")
      else .error .linkUnavailable

/-- `send_teacher_command` seen together with the store: the function
never touches `TableState`, so the store component is passed through. -/
def send_command_step (s : TableState) (conn : ConnState) (table : Int)
    (color : String) : TableState × Except SendError String :=
  (s, send_teacher_command conn table color)

/-! ### Invariants -/

/-- Invariant I2, per entry: `redSince` is non-null iff the color is red. -/
def EntryI2 (e : Entry) : Prop := e.redSince.isSome ↔ e.color = "red"

/-- Invariant I2 over the whole store. -/
def I2 (s : TableState) : Prop := ∀ e ∈ s.entries, EntryI2 e

instance (e : Entry) : Decidable (EntryI2 e) := by
  unfold EntryI2; infer_instance

instance (s : TableState) : Decidable (I2 s) := by
  unfold I2; infer_instance

/-! ### Helper lemmas -/

theorem updateEntry_table (now : Nat) (c : String) (e : Entry) :
    (updateEntry now c e).table = e.table := by
  unfold updateEntry
  split <;> [skip; rfl]
  split <;> rfl

theorem find?_map_update (l : List Entry) (t : Int) (g : Entry → Entry)
    (hg : ∀ e, (g e).table = e.table) :
    (l.map (fun e => if e.table == t then g e else e)).find? (fun e => e.table == t)
      = (l.find? (fun e => e.table == t)).map g := by
  induction l with
  | nil => rfl
  | cons x xs ih =>
    by_cases hx : x.table = t
    · have hhead : (if x.table == t then g x else x) = g x := by simp [hx]
      rw [List.map_cons, hhead, List.find?_cons_of_pos _ (by simp [hg, hx]),
        List.find?_cons_of_pos _ (by simp [hx])]
      rfl
    · have hhead : (if x.table == t then g x else x) = x := by simp [hx]
      rw [List.map_cons, hhead, List.find?_cons_of_neg _ (by simp [hx]),
        List.find?_cons_of_neg _ (by simp [hx])]
      exact ih

theorem lookup_update (s : TableState) (now : Nat) (t : Int) (c : String)
    (e : Entry) (he : s.lookup t = some e) :
    (s.update_table now t c).lookup t = some (updateEntry now c e) := by
  have hmem : s.entries.any (fun x => x.table == t) = true := by
    rcases List.mem_of_find?_eq_some he with hmem
    have hp := List.find?_some he
    exact List.any_eq_true.mpr ⟨e, hmem, hp⟩
  unfold TableState.update_table TableState.lookup
  simp only [hmem, if_true]
  rw [find?_map_update _ _ _ (updateEntry_table now c)]
  unfold TableState.lookup at he
  rw [he]
  rfl

theorem updateEntry_I2 (now : Nat) (c : String) (e : Entry) :
    EntryI2 (updateEntry now c e) := by
  unfold updateEntry EntryI2 pyTruthy
  by_cases hc : c = "red"
  · simp only [hc, if_true]
    cases hr : e.redSince with
    | none => simp
    | some t => by_cases ht : t = 0 <;> simp [ht, hr]
  · simp [hc]

theorem update_table_I2 (s : TableState) (now : Nat) (t : Int) (c : String)
    (hs : I2 s) : I2 (s.update_table now t c) := by
  unfold TableState.update_table
  intro e' he'
  simp only [List.mem_map] at he'
  obtain ⟨e, he, rfl⟩ := he'
  by_cases hm : e.table = t
  · simp only [hm, beq_self_eq_true, if_true]
    exact updateEntry_I2 now c e
  · have hne : (e.table == t) = false := by simp [hm]
    rw [hne]
    simp only [Bool.false_eq_true, if_false]
    split at he
    · exact hs e he
    · rcases List.mem_append.mp he with h | h
      · exact hs e h
      · simp only [List.mem_singleton] at h
        subst h
        constructor <;> simp [EntryI2]

theorem init_I2 (a b : Int) : I2 (TableState.init a b) := by
  intro e he
  simp only [TableState.init, List.mem_map] at he
  obtain ⟨t, _, rfl⟩ := he
  constructor <;> simp

theorem reset_all_I2 (s : TableState) : I2 s.reset_all := by
  intro e he
  simp only [TableState.reset_all, List.mem_map] at he
  obtain ⟨x, _, rfl⟩ := he
  constructor <;> simp

theorem apply_configure_range_I2 (s : TableState) (a b : Int) (hs : I2 s) :
    I2 (s.apply_configure_range a b) := by
  unfold TableState.apply_configure_range TableState.configure_range
  split
  · next s' heq =>
    split at heq
    · cases heq
    · cases heq
      intro e he
      simp only [List.mem_map] at he
      obtain ⟨t, _, rfl⟩ := he
      constructor <;> simp
  · next msg heq => exact hs

/-! ### Claims -/

/-- C1: for any entity id and any (well-formed) store state, `update(id, red)`
when the entity's color is not red sets that entity's `redSince` to the
current time; a second `update(id, red)` while the entity is already red
leaves `redSince` unchanged; and `update(id, c)` for any non-red color `c`
clears `redSince` to `none`.  Well-formedness (`redSince` non-null iff red,
and stored timestamps positive, as `time.time()` produces) holds in every
reachable store state. -/
theorem C1_update_red_redSince (s : TableState) (now : Nat) (id : Int)
    (e : Entry) (he : s.lookup id = some e) (hI2 : EntryI2 e)
    (hpos : ∀ t, e.redSince = some t → 0 < t) :
    (e.color ≠ "red" →
      (s.update_table now id "red").lookup id = some ⟨e.table, "red", some now⟩) ∧
    (e.color = "red" →
      (s.update_table now id "red").lookup id = some ⟨e.table, "red", e.redSince⟩) ∧
    (∀ c, c ≠ "red" →
      (s.update_table now id c).lookup id = some ⟨e.table, c, none⟩) := by
  obtain ⟨et, ec, er⟩ := e
  refine ⟨?_, ?_, ?_⟩
  · intro hcol
    rw [lookup_update s now id "red" _ he]
    have hnone : er = none := by
      cases hr : er with
      | none => rfl
      | some t =>
        exact absurd (hI2.mp (by simp [hr])) hcol
    subst hnone
    unfold updateEntry
    simp [pyTruthy]
  · intro hcol
    rw [lookup_update s now id "red" _ he]
    obtain ⟨t, ht⟩ := Option.isSome_iff_exists.mp (hI2.mpr hcol)
    simp only at ht
    subst ht
    have htpos : t ≠ 0 := Nat.pos_iff_ne_zero.mp (hpos t rfl)
    unfold updateEntry
    simp [pyTruthy, htpos]
  · intro c hc
    rw [lookup_update s now id c _ he]
    unfold updateEntry
    simp [hc]

theorem C1_update_red_redSince_witness :
    ((TableState.init 1 2).update_table 5 2 "red").lookup 2 = some ⟨2, "red", some 5⟩ ∧
    (((TableState.init 1 2).update_table 5 2 "red").update_table 9 2 "red").lookup 2
      = some ⟨2, "red", some 5⟩ ∧
    ((TableState.init 1 2).update_table 5 2 "orange").lookup 2 = some ⟨2, "orange", none⟩ := by
  have h1 := C1_update_red_redSince (TableState.init 1 2) 5 2 ⟨2, "green", none⟩
    (by decide) (by decide) (fun t ht => by cases ht)
  have h2 := C1_update_red_redSince ((TableState.init 1 2).update_table 5 2 "red") 9 2
    ⟨2, "red", some 5⟩ (by decide) (by decide) (fun t ht => by cases ht; decide)
  exact ⟨h1.1 (by decide), h2.2.1 rfl, h1.2.2 "orange" (by decide)⟩

/-- C2: invariant I2 (`redSince` is non-null iff `color == red`) holds in the
initial store and is preserved by `update_table`, `reset_all` and
`configure_range` (whether the latter succeeds or raises). -/
theorem C2_I2_invariant (s : TableState) (hs : I2 s) :
    (∀ a b, I2 (TableState.init a b)) ∧
    (∀ now t c, I2 (s.update_table now t c)) ∧
    I2 s.reset_all ∧
    (∀ a b, I2 (s.apply_configure_range a b)) :=
  ⟨fun a b => init_I2 a b,
   fun now t c => update_table_I2 s now t c hs,
   reset_all_I2 s,
   fun a b => apply_configure_range_I2 s a b hs⟩

theorem C2_I2_invariant_witness :
    I2 (TableState.init 1 3) ∧
    I2 ((TableState.init 1 3).update_table 5 2 "red") ∧
    I2 (TableState.init 1 3).reset_all ∧
    I2 ((TableState.init 1 3).apply_configure_range 2 4) := by
  have h := C2_I2_invariant (TableState.init 1 3) (by decide)
  exact ⟨h.1 1 3, h.2.1 5 2 "red", h.2.2.1, h.2.2.2 2 4⟩

/-! ### Sorting lemmas for `red_durations` -/

/-- Descending by seconds (second component). -/
def SortedDescSeconds (l : List (Int × Int)) : Prop :=
  List.Pairwise (fun a b : Int × Int => b.2 ≤ a.2) l

theorem insertDesc_perm (x : Int × Int) (l : List (Int × Int)) :
    List.Perm (insertDesc x l) (x :: l) := by
  induction l with
  | nil => rfl
  | cons y ys ih =>
    unfold insertDesc
    split
    · rfl
    · exact (ih.cons y).trans (List.Perm.swap x y ys)

theorem insertionSortDesc_perm (l : List (Int × Int)) :
    List.Perm (insertionSortDesc l) l := by
  induction l with
  | nil => rfl
  | cons x xs ih =>
    exact (insertDesc_perm x (insertionSortDesc xs)).trans (ih.cons x)

theorem insertDesc_sorted (x : Int × Int) (l : List (Int × Int))
    (h : SortedDescSeconds l) : SortedDescSeconds (insertDesc x l) := by
  induction l with
  | nil => exact List.pairwise_singleton _ x
  | cons y ys ih =>
    rcases List.pairwise_cons.mp h with ⟨hy, hys⟩
    unfold insertDesc
    split
    · next hle =>
      refine List.pairwise_cons.mpr ⟨?_, h⟩
      intro z hz
      rcases List.mem_cons.mp hz with rfl | hz
      · exact hle
      · exact (hy z hz).trans hle
    · next hgt =>
      refine List.pairwise_cons.mpr ⟨?_, ih hys⟩
      intro z hz
      rcases List.mem_cons.mp ((insertDesc_perm x ys).mem_iff.mp hz) with rfl | hz
      · exact le_of_not_le hgt
      · exact hy z hz

theorem insertionSortDesc_sorted (l : List (Int × Int)) :
    SortedDescSeconds (insertionSortDesc l) := by
  induction l with
  | nil => exact List.Pairwise.nil
  | cons x xs ih => exact insertDesc_sorted x _ ih

theorem filter_insertDesc (x : Int × Int) (l : List (Int × Int)) (k : Int) :
    (insertDesc x l).filter (fun p => p.2 == k)
      = if x.2 = k then x :: l.filter (fun p => p.2 == k)
        else l.filter (fun p => p.2 == k) := by
  induction l with
  | nil => by_cases hx : x.2 = k <;> simp [insertDesc, hx]
  | cons y ys ih =>
    unfold insertDesc
    split
    · next hle => by_cases hx : x.2 = k <;> simp [List.filter_cons, hx]
    · next hgt =>
      by_cases hy : y.2 = k
      · have hxk : ¬ x.2 = k := fun h => hgt (le_of_eq (hy.trans h.symm))
        simp [List.filter_cons, hy, ih, hxk]
      · by_cases hx : x.2 = k <;> simp [List.filter_cons, hy, ih, hx]

theorem filter_insertionSortDesc (l : List (Int × Int)) (k : Int) :
    (insertionSortDesc l).filter (fun p => p.2 == k)
      = l.filter (fun p => p.2 == k) := by
  induction l with
  | nil => rfl
  | cons x xs ih =>
    unfold insertionSortDesc
    rw [filter_insertDesc]
    by_cases hx : x.2 = k <;> simp [List.filter_cons, hx, ih]

/-- C3 (amended): `red_durations` returns the red entities' elapsed seconds
(current time minus `redSince`) sorted descending by elapsed seconds,
truncated to the first `limit` entries; ties are broken by the entities'
insertion order in the store (Python's sort is stable over dict order),
not by ascending entity id. -/
theorem C3_red_durations_sorted (s : TableState) (now : Nat) (limit : Nat) :
    s.red_durations now limit = (insertionSortDesc (redBase s now)).take limit ∧
    List.Perm (insertionSortDesc (redBase s now)) (redBase s now) ∧
    SortedDescSeconds (insertionSortDesc (redBase s now)) ∧
    (s.red_durations now limit).length = min limit (redBase s now).length ∧
    ∀ k, (insertionSortDesc (redBase s now)).filter (fun p => p.2 == k)
        = (redBase s now).filter (fun p => p.2 == k) :=
  ⟨rfl, insertionSortDesc_perm _, insertionSortDesc_sorted _,
   by rw [TableState.red_durations, List.length_take,
     (insertionSortDesc_perm (redBase s now)).length_eq],
   fun k => filter_insertionSortDesc _ k⟩

/-- Insertion step of the ordering the claim describes: descending by
seconds, ties broken by ascending id. -/
def specInsertTopRed (x : Int × Int) : List (Int × Int) → List (Int × Int)
  | [] => [x]
  | y :: ys =>
    if x.2 > y.2 ∨ (x.2 = y.2 ∧ x.1 ≤ y.1) then x :: y :: ys
    else y :: specInsertTopRed x ys

/-- Modelled from the spec's words, for comparison with the code:
"descending by elapsed seconds, ties broken by ascending id for
determinism; truncated to `limit`". -/
def specTopRedDurations (s : TableState) (now : Nat) (limit : Nat) :
    List (Int × Int) :=
  ((redBase s now).foldr specInsertTopRed []).take limit

/-- C3 (counterexample): with range `1..1`, updating id `3` to red and then
id `2` to red at the same clock time leaves the tied pair in insertion
order `[(3, 5), (2, 5)]`, while the claimed ascending-id tie-break would
give `[(2, 5), (3, 5)]`. -/
theorem C3_counterexample :
    TableState.red_durations
        (((TableState.init 1 1).update_table 5 3 "red").update_table 5 2 "red") 10 10
      = [(3, 5), (2, 5)] ∧
    specTopRedDurations
        (((TableState.init 1 1).update_table 5 3 "red").update_table 5 2 "red") 10 10
      = [(2, 5), (3, 5)] ∧
    ([(3, 5), (2, 5)] : List (Int × Int)) ≠ [(2, 5), (3, 5)] := by
  refine ⟨by decide, by decide, by decide⟩

/-- C4: `configure_range(start, end)` fails with the `InvalidRange` error
exactly when `start ≤ 0` or `end < start`, and on failure the store is
unchanged; for every valid `(start, end)` it replaces the entity set with
exactly `end - start + 1` entities, the ids `start..end`, all green, all
with `redSince = none`. -/
theorem C4_configure_range (s : TableState) (a b : Int) :
    ((a ≤ 0 ∨ b < a) ↔ s.configure_range a b = .error "Invalid table range") ∧
    ((a ≤ 0 ∨ b < a) → s.apply_configure_range a b = s) ∧
    (¬(a ≤ 0 ∨ b < a) →
      s.configure_range a b = .ok (s.apply_configure_range a b) ∧
      ((s.apply_configure_range a b).entries.length : Int) = b - a + 1 ∧
      (s.apply_configure_range a b).entries.map Entry.table = rangeList a b ∧
      ∀ e ∈ (s.apply_configure_range a b).entries,
        e.color = "green" ∧ e.redSince = none) := by
  refine ⟨⟨?_, ?_⟩, ?_, ?_⟩
  · intro hv
    simp [TableState.configure_range, hv]
  · intro herr
    by_contra hv
    simp [TableState.configure_range, hv] at herr
  · intro hv
    simp [TableState.apply_configure_range, TableState.configure_range, hv]
  · intro hv
    have happ : s.apply_configure_range a b
        = ⟨a, b, (rangeList a b).map (fun t => ⟨t, "green", none⟩)⟩ := by
      simp [TableState.apply_configure_range, TableState.configure_range, hv]
    push_neg at hv
    refine ⟨?_, ?_, ?_, ?_⟩
    · have hcond : ¬(a ≤ 0 ∨ b < a) := by omega
      rw [happ]
      simp [TableState.configure_range, hcond]
    · rw [happ]
      simp only [List.length_map]
      rw [rangeList, List.length_map, List.length_range]
      omega

    · rw [happ, List.map_map]
      have hc : Entry.table ∘ (fun t => (⟨t, "green", none⟩ : Entry)) = id := rfl
      rw [hc, List.map_id]
    · rw [happ]
      intro e he
      simp only [List.mem_map] at he
      obtain ⟨t, _, rfl⟩ := he
      exact ⟨rfl, rfl⟩

theorem C4_configure_range_witness :
    (TableState.init 1 2).configure_range 0 5 = .error "Invalid table range" ∧
    (TableState.init 1 2).apply_configure_range 0 5 = TableState.init 1 2 ∧
    (TableState.init 1 2).configure_range 3 5
      = .ok ((TableState.init 1 2).apply_configure_range 3 5) ∧
    (((TableState.init 1 2).apply_configure_range 3 5).entries.length : Int)
      = 5 - 3 + 1 := by
  have h1 := C4_configure_range (TableState.init 1 2) 0 5
  have h2 := C4_configure_range (TableState.init 1 2) 3 5
  exact ⟨h1.1.mp (Or.inl (by decide)), h1.2.1 (Or.inl (by decide)),
    (h2.2.2 (by decide)).1, (h2.2.2 (by decide)).2.1⟩

/-- C5: a serial line whose role field is `"RT"` (whatever the rest of the
payload is, including wrong field counts) produces no store mutation and
no broadcast. -/
theorem C5_rt_lines_ignored (s : TableState) (now : Nat) (line : String)
    (rest : List String) (h : pySplit (pyStrip line) = "RT" :: rest) :
    read_loop_step s now line = (s, none) := by
  unfold read_loop_step
  by_cases hraw : pyStrip line = ""
  · simp [hraw]
  · have hpm : parse_message (pyStrip line) = none := by
      unfold parse_message
      rw [h]
      rcases rest with _ | ⟨a, _ | ⟨b, _ | ⟨c, ds⟩⟩⟩ <;> simp
    simp [hraw, hpm]

theorem C5_rt_lines_ignored_witness :
    read_loop_step (TableState.init 1 2) 7 "RT,2,2" = (TableState.init 1 2, none) :=
  C5_rt_lines_ignored (TableState.init 1 2) 7 "RT,2,2" ["2", "2"] (by decide)

/-- C6: every malformed serial line — wrong comma-separated field count,
non-integer id or color field, or color index outside `{0, 1, 2}` — is
dropped without mutating the store (and, being a total function, without
raising). -/
theorem C6_malformed_ignored (s : TableState) (now : Nat) (line : String)
    (h : (pySplit (pyStrip line)).length ≠ 3 ∨
      ∃ r t c, pySplit (pyStrip line) = [r, t, c] ∧
        (pyParseInt t = none ∨ pyParseInt c = none ∨
          ∃ ci, pyParseInt c = some ci ∧ COLOR_CODE ci = none)) :
    read_loop_step s now line = (s, none) := by
  unfold read_loop_step
  by_cases hraw : pyStrip line = ""
  · simp [hraw]
  · have hpm : parse_message (pyStrip line) = none := by
      unfold parse_message
      rcases h with h | ⟨r, t, c, hsplit, hbad⟩
      · rcases hsp : pySplit (pyStrip line) with _ | ⟨a, _ | ⟨b, _ | ⟨c2, _ | ⟨d, ds⟩⟩⟩⟩
        · rfl
        · rfl
        · rfl
        · exact absurd (by simp [hsp]) h
        · rfl
      · rw [hsplit]
        by_cases hr : r = "RT"
        · simp [hr]
        · rcases hbad with ht | hc | ⟨ci, hc, hcol⟩
          · cases hcopt : pyParseInt c <;> simp [hr, ht, hcopt]
          · cases htopt : pyParseInt t <;> simp [hr, hc, htopt]
          · cases htopt : pyParseInt t <;> simp [hr, hc, hcol, htopt]
    simp [hraw, hpm]

theorem C6_malformed_ignored_witness :
    read_loop_step (TableState.init 1 2) 7 "garbage" = (TableState.init 1 2, none) ∧
    read_loop_step (TableState.init 1 2) 7 "S,x,2" = (TableState.init 1 2, none) ∧
    read_loop_step (TableState.init 1 2) 7 "S,1,9" = (TableState.init 1 2, none) :=
  ⟨C6_malformed_ignored _ 7 "garbage" (Or.inl (by decide)),
   C6_malformed_ignored _ 7 "S,x,2"
     (Or.inr ⟨"S", "x", "2", by decide, Or.inl (by decide)⟩),
   C6_malformed_ignored _ 7 "S,1,9"
     (Or.inr ⟨"S", "1", "9", by decide, Or.inr (Or.inr ⟨9, by decide, by decide⟩)⟩)⟩

/-- C10: any role token other than `"RT"` — not only `"T"` or `"S"` — is
accepted: a line with three comma-separated fields, an integer id field
and a color index in `{0, 1, 2}` produces a store update and a broadcast
whatever its role string is. -/
theorem C10_any_role_accepted (s : TableState) (now : Nat) (line : String)
    (role tstr cstr : String) (table ci : Int) (col : String)
    (hsplit : pySplit (pyStrip line) = [role, tstr, cstr])
    (hrole : role ≠ "RT")
    (ht : pyParseInt tstr = some table)
    (hc : pyParseInt cstr = some ci)
    (hcol : COLOR_CODE ci = some col) :
    read_loop_step s now line = (s.update_table now table col, some (table, col)) := by
  unfold read_loop_step
  by_cases hraw : pyStrip line = ""
  · rw [hraw] at hsplit
    have hempty : pySplit "" = [""] := rfl
    rw [hempty] at hsplit
    simp at hsplit
  · have hpm : parse_message (pyStrip line) = some (table, col) := by
      unfold parse_message
      rw [hsplit]
      simp [hrole, ht, hc, hcol]
    simp [hraw, hpm]

theorem C10_any_role_accepted_witness :
    read_loop_step (TableState.init 1 1) 7 "X,5,2"
      = ((TableState.init 1 1).update_table 7 5 "red", some (5, "red")) :=
  C10_any_role_accepted (TableState.init 1 1) 7 "X,5,2" "X" "5" "2" 5 2 "red"
    (by decide) (by decide) (by decide) (by decide) (by decide)

/-! ### Broadcast lemmas -/

theorem foldl_erase_cons (l' : List Nat) (c : Nat) (acc : List Nat)
    (h : ∀ x ∈ l', x ≠ c) :
    l'.foldl (fun l x => l.erase x) (c :: acc)
      = c :: l'.foldl (fun l x => l.erase x) acc := by
  induction l' generalizing acc with
  | nil => rfl
  | cons x xs ih =>
    have hxc : x ≠ c := h x (List.mem_cons_self x xs)
    simp only [List.foldl_cons]
    rw [List.erase_cons_tail (by simp [Ne.symm hxc])]
    exact ih _ (fun y hy => h y (List.mem_cons_of_mem x hy))

theorem broadcast_remaining (conns : List Nat) (ok : Nat → Bool)
    (h : conns.Nodup) :
    (conns.filter (fun c => !(ok c))).foldl (fun l c => l.erase c) conns
      = conns.filter ok := by
  induction conns with
  | nil => rfl
  | cons c cs ih =>
    rcases List.nodup_cons.mp h with ⟨hc, hcs⟩
    by_cases hok : ok c
    · have hne : ∀ x ∈ cs.filter (fun x => !(ok x)), x ≠ c := by
        intro x hx hxc
        exact hc (hxc ▸ List.mem_of_mem_filter hx)
      have hfil : (c :: cs).filter (fun x => !(ok x))
          = cs.filter (fun x => !(ok x)) := by
        simp [List.filter_cons, hok]
      rw [hfil, foldl_erase_cons _ c cs hne, ih hcs]
      simp [List.filter_cons, hok]
    · have hfil : (c :: cs).filter (fun x => !(ok x))
          = c :: cs.filter (fun x => !(ok x)) := by
        simp [List.filter_cons, hok]
      rw [hfil]
      simp only [List.foldl_cons]
      rw [List.erase_cons_head, ih hcs]
      simp [List.filter_cons, hok]

/-- C7: `broadcast` attempts delivery to every registered observer — each
observer receives the message exactly when its own send succeeds,
regardless of other observers' failures — and afterwards exactly the
observers whose delivery failed have been removed from the set. -/
theorem C7_broadcast_partial_failure (conns : List Nat) (ok : Nat → Bool)
    (h : conns.Nodup) :
    (broadcast conns ok).received = conns.filter ok ∧
    (broadcast conns ok).remaining = conns.filter ok :=
  ⟨rfl, broadcast_remaining conns ok h⟩

theorem C7_broadcast_partial_failure_witness :
    (broadcast [1, 2, 3] (fun c => c != 2)).received = [1, 3] ∧
    (broadcast [1, 2, 3] (fun c => c != 2)).remaining = [1, 3] := by
  have h := C7_broadcast_partial_failure [1, 2, 3] (fun c => c != 2) (by decide)
  exact ⟨h.1.trans (by decide), h.2.trans (by decide)⟩

/-! ### Entity-id set lemmas -/

theorem map_table_mk_range (a b : Int) :
    ((rangeList a b).map (fun t => (⟨t, "green", none⟩ : Entry))).map Entry.table
      = rangeList a b := by
  rw [List.map_map]
  have hc : Entry.table ∘ (fun t => (⟨t, "green", none⟩ : Entry)) = id := rfl
  rw [hc, List.map_id]

theorem map_table_update (l : List Entry) (g : Entry → Entry) (t : Int)
    (hg : ∀ e, (g e).table = e.table) :
    (l.map (fun e => if e.table == t then g e else e)).map Entry.table
      = l.map Entry.table := by
  induction l with
  | nil => rfl
  | cons x xs ih =>
    simp only [List.map_cons, ih]
    by_cases hx : x.table = t <;> simp [hx, hg]

/-- C8 (counterexample): with configured range `1..2`, an update on id
`100` adopts the unknown id (spec invariant I3), so the entity set is no
longer exactly `{start..end}` for the configured range. -/
theorem C8_entity_set_counterexample :
    ((TableState.init 1 2).update_table 5 100 "green").startId = 1 ∧
    ((TableState.init 1 2).update_table 5 100 "green").endId = 2 ∧
    (100 : Int) ∈ ((TableState.init 1 2).update_table 5 100 "green").entries.map Entry.table ∧
    (100 : Int) ∉ rangeList 1 2 :=
  ⟨rfl, rfl, by decide, by decide⟩

/-- C8 (amended): the entity-id set is exactly `{start..end}` after
initialization and after every successful reconfiguration; `reset_all`
preserves it; `update_table` never removes ids nor touches the configured
range, but adopts its id when it is unknown — so after updates on ids
outside the range the set is a strict superset of `{start..end}`. -/
theorem C8_entity_set (s : TableState) (now : Nat) (t : Int) (c : String)
    (a b : Int) :
    (TableState.init a b).entries.map Entry.table = rangeList a b ∧
    s.reset_all.entries.map Entry.table = s.entries.map Entry.table ∧
    (s.update_table now t c).startId = s.startId ∧
    (s.update_table now t c).endId = s.endId ∧
    (s.update_table now t c).entries.map Entry.table
      = (if t ∈ s.entries.map Entry.table then s.entries.map Entry.table
         else s.entries.map Entry.table ++ [t]) ∧
    (¬(a ≤ 0 ∨ b < a) →
      (s.apply_configure_range a b).entries.map Entry.table = rangeList a b) := by
  refine ⟨map_table_mk_range a b, ?_, rfl, rfl, ?_, ?_⟩
  · rw [TableState.reset_all, List.map_map]
    rfl
  · by_cases hmem : t ∈ s.entries.map Entry.table
    · have hany : s.entries.any (fun e => e.table == t) = true := by
        rw [List.any_eq_true]
        rcases List.mem_map.mp hmem with ⟨e, he, rfl⟩
        exact ⟨e, he, by simp⟩
      simp only [TableState.update_table, hany, if_true]
      rw [map_table_update _ _ _ (updateEntry_table now c)]
      simp [hmem]
    · have hany : s.entries.any (fun e => e.table == t) = false := by
        rw [Bool.eq_false_iff]
        intro hx
        rcases List.any_eq_true.mp hx with ⟨e, he, het⟩
        exact hmem (List.mem_map.mpr ⟨e, he, by simpa using het⟩)
      simp only [TableState.update_table, hany]
      rw [if_neg (by simp)]
      rw [map_table_update _ _ _ (updateEntry_table now c)]
      simp [hmem, List.map_append]
  · intro hv
    have happ : s.apply_configure_range a b
        = ⟨a, b, (rangeList a b).map (fun t => ⟨t, "green", none⟩)⟩ := by
      simp [TableState.apply_configure_range, TableState.configure_range, hv]
    rw [happ]
    exact map_table_mk_range a b

theorem C8_entity_set_witness :
    (TableState.init 1 2).entries.map Entry.table = rangeList 1 2 ∧
    ((TableState.init 1 2).update_table 5 100 "green").entries.map Entry.table
      = (TableState.init 1 2).entries.map Entry.table ++ [100] ∧
    ((TableState.init 1 2).apply_configure_range 3 4).entries.map Entry.table
      = rangeList 3 4 := by
  have h1 := C8_entity_set (TableState.init 1 2) 5 100 "green" 1 2
  have h2 := C8_entity_set (TableState.init 1 2) 5 100 "green" 3 4
  exact ⟨h1.1, (h1.2.2.2.2.1).trans (by decide), h2.2.2.2.2.2 (by decide)⟩

/-- C9: `send_teacher_command` while no serial connection is open (no
handle, or a handle that is not open) fails with the `LinkUnavailable`
error and performs no store mutation; with an open connection it writes
exactly the line `"T,<entityId>,<colorIndex>\n"`. -/
theorem C9_send_command (s : TableState) (conn : ConnState) (table : Int)
    (color : String) (ci : Int) (hc : COLOR_NAME_TO_ID color = some ci) :
    ((conn = none ∨ conn = some false) →
      send_command_step s conn table color = (s, .error .linkUnavailable)) ∧
    (send_command_step s conn table color).1 = s ∧
    (conn = some true →
      send_command_step s conn table color
        = (s, .ok ("T," ++ toString table ++ "," ++ toString ci ++ "\n"))) := by
  refine ⟨?_, rfl, ?_⟩
  · rintro (rfl | rfl) <;> simp [send_command_step, send_teacher_command, hc]
  · rintro rfl
    simp [send_command_step, send_teacher_command, hc]

theorem C9_send_command_witness :
    send_command_step (TableState.init 1 1) none 4 "red"
      = (TableState.init 1 1, .error .linkUnavailable) ∧
    send_command_step (TableState.init 1 1) (some true) 4 "red"
      = (TableState.init 1 1, .ok "T,4,2\n") := by
  have h1 := C9_send_command (TableState.init 1 1) none 4 "red" 2 (by decide)
  have h2 := C9_send_command (TableState.init 1 1) (some true) 4 "red" 2 (by decide)
  exact ⟨h1.1 (Or.inl rfl), (h2.2.2 rfl).trans (by rfl)⟩

end Traffic
